import Mathlib

/-!
Shallow embedding of `frugalos_segment/src/synchronizer.rs` (crate `frugalos`):
the per-node synchronizer that turns MDS events into delete/repair background
work. Instants and durations are modelled as natural numbers of seconds,
Prometheus counters as naturals, the two `BinaryHeap<Reverse<TodoItem>>`s as
lists sorted ascending in the derived `TodoItem` order (minimum first, which is
exactly the element `peek_mut`/`pop` of the reversed max-heap operate on), and
the `BTreeSet<ObjectVersion>` as a duplicate-free list observed through
membership only.
-/

namespace Frugalos

/-- `MAX_TIMEOUT_SECONDS` from synchronizer.rs. -/
def MAX_TIMEOUT_SECONDS : Nat := 60

/-- `DELETE_CONCURRENCY` from synchronizer.rs. -/
def DELETE_CONCURRENCY : Nat := 16

/-- Strict lexicographic order on `Vec<ObjectVersion>` (the Rust derived `Ord`,
with a strict prefix comparing less). -/
def listLt : List Nat → List Nat → Bool
  | [], [] => false
  | [], _ :: _ => true
  | _ :: _, [] => false
  | a :: as, b :: bs => if a < b then true else if b < a then false else listLt as bs

/-- `TodoItem` from synchronizer.rs: a repair work item carrying its absolute
eligibility instant and target version, or a coalesced batch of versions to
delete. -/
inductive TodoItem where
  | repairContent (start_time : Nat) (version : Nat)
  | deleteContent (versions : List Nat)
deriving DecidableEq, Repr

/-- The strict order produced by `#[derive(PartialOrd, Ord)]` on `TodoItem`:
the discriminant compares first (`RepairContent` is declared before
`DeleteContent`, so every repair item is less than every delete item), then the
fields lexicographically in declaration order. -/
def TodoItem.lt : TodoItem → TodoItem → Bool
  | .repairContent s1 v1, .repairContent s2 v2 =>
      if s1 < s2 then true else if s2 < s1 then false else v1 < v2
  | .repairContent _ _, .deleteContent _ => true
  | .deleteContent _, .repairContent _ _ => false
  | .deleteContent l1, .deleteContent l2 => listLt l1 l2

/-- Model of `BinaryHeap<Reverse<TodoItem>>`: ordered insert into the
ascending list, a new element landing after any element it ties with. -/
def heapPush (x : TodoItem) : List TodoItem → List TodoItem
  | [] => [x]
  | y :: ys => if TodoItem.lt x y then x :: y :: ys else y :: heapPush x ys

/-- `frugalos_mds::Event`, restricted to what the synchronizer reads. For
`FullSync` only `next_commit` is kept; the `machine` snapshot is opaque to the
synchronizer itself (it is merely handed to the `FullSync` job). -/
inductive Event where
  | putted (version : Nat) (put_content_timeout : Nat)
  | deleted (version : Nat)
  | fullSync (next_commit : Nat)
deriving DecidableEq, Repr

/-- `libfrugalos::repair::RepairIdleness`. -/
inductive RepairIdleness where
  | disabled
  | threshold (d : Nat)
deriving DecidableEq, Repr

/-- The `Task` four-state machine. `wait` stores the timer deadline (the
instant it was armed plus the clamped duration); `delete`/`repair` store the
arguments their executors were constructed from. -/
inductive Task where
  | idle
  | wait (deadline : Nat)
  | delete (versions : List Nat)
  | repair (version : Nat)
deriving DecidableEq, Repr

/-- `Task::is_sleeping`. -/
def Task.is_sleeping : Task → Bool
  | .idle => true
  | .wait _ => true
  | _ => false

/-- `BTreeSet::insert`: adds the version unless already present. -/
def setInsert (v : Nat) (l : List Nat) : List Nat := if v ∈ l then l else v :: l

/-- `BTreeSet::remove`. -/
def setRemove (v : Nat) (l : List Nat) : List Nat := l.filter (fun x => x ≠ v)

/-- The mutable state of `Synchronizer` (device handle, client, logger and the
metric handles are capabilities; of the client only `is_metadata()` is read by
the code under consideration, so that bit is carried as state; the counters are
the four counter values). -/
structure Synchronizer where
  is_metadata : Bool
  task : Task
  todo_delete : List TodoItem
  todo_repair : List TodoItem
  repair_candidates : List Nat
  enqueued_repair : Nat
  enqueued_delete : Nat
  dequeued_repair : Nat
  dequeued_delete : Nat
  full_sync : Option Nat
  full_sync_step : Nat
  repair_idleness_threshold : RepairIdleness
  last_not_idle : Nat
deriving DecidableEq, Repr

/-- `Synchronizer::new`: empty queues and candidate set, zeroed counters, no
full-sync job, task `Idle`, repair disabled, `last_not_idle = Instant::now()`. -/
def Synchronizer.new (now : Nat) (is_metadata : Bool) (full_sync_step : Nat) : Synchronizer :=
  { is_metadata := is_metadata
    task := Task.idle
    todo_delete := []
    todo_repair := []
    repair_candidates := []
    enqueued_repair := 0
    enqueued_delete := 0
    dequeued_repair := 0
    dequeued_delete := 0
    full_sync := none
    full_sync_step := full_sync_step
    repair_idleness_threshold := RepairIdleness.disabled
    last_not_idle := now }

/-- `Synchronizer::is_repair_enabled`. -/
def Synchronizer.is_repair_enabled (s : Synchronizer) : Bool :=
  match s.repair_idleness_threshold with
  | .threshold _ => true
  | .disabled => false

/-- `TodoItem::new`, with `now` the ingestion instant (`SystemTime::now()`).
Returns `none` for `FullSync`, where the Rust code is `unreachable!` and is in
fact never called. -/
def TodoItem.fromEvent (now : Nat) : Event → Option TodoItem
  | .deleted version => some (.deleteContent [version])
  | .putted version put_content_timeout =>
      some (.repairContent (now + put_content_timeout) version)
  | .fullSync _ => none

/-- `TodoItem::wait_time`: `start_time.duration_since(SystemTime::now()).ok()`
is `some` exactly when `now ≤ start_time` (including `some 0` at equality);
delete items never wait. -/
def TodoItem.wait_time (now : Nat) : TodoItem → Option Nat
  | .deleteContent _ => none
  | .repairContent start_time _ =>
      if now ≤ start_time then some (start_time - now) else none

/-- `Synchronizer::handle_event`. A metadata node ignores everything.
`Putted` bumps `enqueued_repair`, inserts the candidate and pushes a repair
item. `Deleted` first removes the version from `repair_candidates`, then tries
to coalesce via `peek_mut`: if the top (minimum) of `todo_delete` is a
`DeleteContent` with fewer than `DELETE_CONCURRENCY` versions, the version is
appended to it (modelled as pop, mutate, ordered re-insert, which is what the
heap's sift on `PeekMut` drop amounts to) and the function returns early;
otherwise `enqueued_delete` is incremented and a fresh singleton item is
pushed. `FullSync` fills the `full_sync` slot only when it is empty. -/
def handle_event (now : Nat) (s : Synchronizer) (e : Event) : Synchronizer :=
  if s.is_metadata then s else
  match e with
  | .putted version put_content_timeout =>
      { s with
        enqueued_repair := s.enqueued_repair + 1
        repair_candidates := setInsert version s.repair_candidates
        todo_repair :=
          heapPush (.repairContent (now + put_content_timeout) version) s.todo_repair }
  | .deleted version =>
      let s1 := { s with repair_candidates := setRemove version s.repair_candidates }
      match s1.todo_delete with
      | TodoItem.deleteContent versions :: rest =>
          if versions.length < DELETE_CONCURRENCY then
            { s1 with todo_delete := heapPush (.deleteContent (versions ++ [version])) rest }
          else
            { s1 with
              enqueued_delete := s1.enqueued_delete + 1
              todo_delete := heapPush (.deleteContent [version]) s1.todo_delete }
      | _ =>
          { s1 with
            enqueued_delete := s1.enqueued_delete + 1
            todo_delete := heapPush (.deleteContent [version]) s1.todo_delete }
  | .fullSync next_commit =>
      if s.full_sync.isNone then { s with full_sync := some next_commit } else s

/-- One pop inside the `next_todo_item` loop: when repair is enabled consult
`todo_repair` first and fall back to `todo_delete`; when disabled consult
`todo_delete` only. -/
def popItem (s : Synchronizer) : Option (TodoItem × Synchronizer) :=
  if s.is_repair_enabled then
    match s.todo_repair with
    | i :: rest => some (i, { s with todo_repair := rest })
    | [] =>
      match s.todo_delete with
      | i :: rest => some (i, { s with todo_delete := rest })
      | [] => none
  else
    match s.todo_delete with
    | i :: rest => some (i, { s with todo_delete := rest })
    | [] => none

/-- Total population of the two queues. -/
def Synchronizer.qsize (s : Synchronizer) : Nat :=
  s.todo_repair.length + s.todo_delete.length

theorem popItem_qsize {s s1 : Synchronizer} {i : TodoItem}
    (h : popItem s = some (i, s1)) : s1.qsize + 1 = s.qsize := by
  unfold popItem at h
  split at h
  · cases hr : s.todo_repair with
    | cons a as =>
        rw [hr] at h
        cases h
        simp [Synchronizer.qsize, hr]
        omega
    | nil =>
        rw [hr] at h
        cases hd : s.todo_delete with
        | cons a as =>
            rw [hd] at h
            cases h
            simp [Synchronizer.qsize, hr, hd]
        | nil =>
            rw [hd] at h
            cases h
  · cases hd : s.todo_delete with
    | cons a as =>
        rw [hd] at h
        cases h
        simp [Synchronizer.qsize, hd]
        omega
    | nil =>
        rw [hd] at h
        cases h

/-- The pop loop inside `Synchronizer::next_todo_item`: pop, discard stale
repair items (version no longer in `repair_candidates`) counting each discard
in `dequeued_repair`, and stop at the first surviving item or when the
consulted queues are exhausted. -/
def next_todo_loop (s : Synchronizer) : Option TodoItem × Synchronizer :=
  match h : popItem s with
  | none => (none, s)
  | some (item, s1) =>
    match item with
    | .repairContent st v =>
        if v ∈ s1.repair_candidates then (some (TodoItem.repairContent st v), s1)
        else next_todo_loop { s1 with dequeued_repair := s1.dequeued_repair + 1 }
    | .deleteContent vs => (some (TodoItem.deleteContent vs), s1)
termination_by s.qsize
decreasing_by
  have hq := popItem_qsize h
  simp only [Synchronizer.qsize] at *
  omega

/-- `Synchronizer::next_todo_item`. After the pop loop, a surviving item whose
`wait_time` is `some d` arms a single-shot timer of `d` clamped to
`MAX_TIMEOUT_SECONDS`, is pushed back onto `todo_repair`, and no item is
returned; otherwise the item is returned and, when it is a repair, its version
is removed from `repair_candidates`. (The conditional `shrink_to_fit` calls
only change heap capacity, which has no observable counterpart here.) -/
def next_todo_item (now : Nat) (s : Synchronizer) : Option TodoItem × Synchronizer :=
  match next_todo_loop s with
  | (none, s1) => (none, s1)
  | (some item, s1) =>
    match TodoItem.wait_time now item with
    | some d =>
        (none, { s1 with
                  task := Task.wait (now + min d MAX_TIMEOUT_SECONDS)
                  todo_repair := heapPush item s1.todo_repair })
    | none =>
        match item with
        | .repairContent st v =>
            (some (TodoItem.repairContent st v),
             { s1 with repair_candidates := setRemove v s1.repair_candidates })
        | .deleteContent vs => (some (TodoItem.deleteContent vs), s1)

/-- Readiness of one `Task::poll` in the scheduler loop. `Idle` is immediately
ready; a `Wait` timer is ready once its deadline has been reached; the
delete/repair executors finish at the discretion of the device and the peers,
modelled by one oracle bit consumed per executor poll (an executor error also
counts as ready, matching the `unwrap_or_else` in the source). -/
def taskReady (now : Nat) (t : Task) (oracle : List Bool) : Bool × List Bool :=
  match t with
  | .idle => (true, oracle)
  | .wait deadline => (decide (deadline ≤ now), oracle)
  | .delete _ =>
    match oracle with
    | [] => (false, [])
    | b :: rest => (b, rest)
  | .repair _ =>
    match oracle with
    | [] => (false, [])
    | b :: rest => (b, rest)

/-- The dispatch loop of `<Synchronizer as Future>::poll` (its second `while`).
While the current task polls ready, reset it to `Idle` and consult
`next_todo_item`: a delete item starts a delete executor, counts
`dequeued_delete`, refreshes `last_not_idle` and keeps looping; a repair item
under `Threshold(d)` is pushed back with its candidate re-inserted when the
elapsed idle time is still below `d`, breaking out of the loop, and otherwise
starts a repair executor, counts `dequeued_repair` and refreshes
`last_not_idle`; with repair disabled a repair item (which the queue invariant
makes unreachable) is dropped on the floor and the loop continues; when no item
is returned the loop breaks only if the task is still `Idle` (a `Wait` armed by
`next_todo_item` is polled again instead). The fuel bounds the number of
iterations; claims are stated for sufficient fuel. -/
def pollLoop (now : Nat) : Nat → List Bool → Synchronizer → Synchronizer
  | 0, _, s => s
  | fuel + 1, oracle, s =>
    match taskReady now s.task oracle with
    | (false, _) => s
    | (true, oracle1) =>
      match next_todo_item now { s with task := Task.idle } with
      | (some (TodoItem.deleteContent vs), s1) =>
          pollLoop now fuel oracle1
            { s1 with
              task := Task.delete vs
              dequeued_delete := s1.dequeued_delete + 1
              last_not_idle := now }
      | (some (TodoItem.repairContent st v), s1) =>
          match s1.repair_idleness_threshold with
          | .threshold d =>
              if now - s1.last_not_idle < d then
                { s1 with
                  repair_candidates := setInsert v s1.repair_candidates
                  todo_repair := heapPush (TodoItem.repairContent st v) s1.todo_repair }
              else
                pollLoop now fuel oracle1
                  { s1 with
                    task := Task.repair v
                    dequeued_repair := s1.dequeued_repair + 1
                    last_not_idle := now }
          | .disabled => pollLoop now fuel oracle1 s1
      | (none, s1) =>
          match s1.task with
          | Task.idle => s1
          | _ => pollLoop now fuel oracle1 s1

/-- `<Synchronizer as Future>::poll`: drive the full-sync child job first
(clearing the slot when it finishes or fails during this poll), then refresh
`last_not_idle` when the current task is not sleeping, then run the dispatch
loop. The future's own result is always `NotReady`, so only the state matters. -/
def Synchronizer.poll (now : Nat) (fullSyncDone : Bool) (oracle : List Bool) (fuel : Nat)
    (s : Synchronizer) : Synchronizer :=
  let s1 := if s.full_sync.isSome && fullSyncDone then { s with full_sync := none } else s
  let s2 := if s1.task.is_sleeping then s1 else { s1 with last_not_idle := now }
  pollLoop now fuel oracle s2

/-- One externally triggered action on the synchronizer: an event ingest or a
scheduler poll, each with its own clock reading and oracle bits. -/
inductive Act where
  | ev (now : Nat) (e : Event)
  | poll (now : Nat) (fullSyncDone : Bool) (oracle : List Bool) (fuel : Nat)
deriving Repr

/-- Apply one action. -/
def applyAct (s : Synchronizer) : Act → Synchronizer
  | .ev now e => handle_event now s e
  | .poll now fsd oracle fuel => Synchronizer.poll now fsd oracle fuel s

/-- Run a whole action sequence. -/
def run (s : Synchronizer) (acts : List Act) : Synchronizer := acts.foldl applyAct s

/-- `i` is a `DeleteContent`. -/
def isDelete : TodoItem → Bool
  | .deleteContent _ => true
  | _ => false

/-- Queue invariant: `todo_delete` can hold `TodoItem::DeleteContent`s only. -/
def DeleteOnly (l : List TodoItem) : Prop := ∀ i ∈ l, isDelete i = true

instance decidableDeleteOnly (l : List TodoItem) : Decidable (DeleteOnly l) :=
  List.decidableBAll _ l

/-- `t` is a `Task::Repair`. -/
def Task.isRepair : Task → Bool
  | .repair _ => true
  | _ => false

theorem heapPush_mem (x : TodoItem) (l : List TodoItem) (i : TodoItem) :
    i ∈ heapPush x l ↔ i = x ∨ i ∈ l := by
  induction l with
  | nil => simp [heapPush]
  | cons y ys ih =>
      simp only [heapPush]
      split
      · simp [List.mem_cons]
      · simp only [List.mem_cons, ih]
        tauto

theorem heapPush_sublist (x : TodoItem) (l : List TodoItem) :
    List.Sublist l (heapPush x l) := by
  induction l with
  | nil => simp [heapPush]
  | cons y ys ih =>
      simp only [heapPush]
      split
      · exact List.sublist_cons_self x (y :: ys)
      · exact List.Sublist.cons₂ y ih

theorem deleteOnly_heapPush {x : TodoItem} {l : List TodoItem}
    (hx : isDelete x = true) (hl : DeleteOnly l) : DeleteOnly (heapPush x l) := by
  intro i hi
  rcases (heapPush_mem x l i).1 hi with h | h
  · subst h; exact hx
  · exact hl i h

theorem deleteOnly_tail {x : TodoItem} {l : List TodoItem}
    (h : DeleteOnly (x :: l)) : DeleteOnly l :=
  fun i hi => h i (List.mem_cons_of_mem _ hi)

theorem popItem_frame {s s1 : Synchronizer} {i : TodoItem}
    (h : popItem s = some (i, s1)) :
    s1.task = s.task ∧ s1.repair_candidates = s.repair_candidates ∧
    s1.repair_idleness_threshold = s.repair_idleness_threshold ∧
    s1.last_not_idle = s.last_not_idle ∧ s1.dequeued_delete = s.dequeued_delete ∧
    s1.is_metadata = s.is_metadata ∧ s1.enqueued_repair = s.enqueued_repair ∧
    s1.enqueued_delete = s.enqueued_delete ∧ s1.full_sync = s.full_sync ∧
    s1.dequeued_repair = s.dequeued_repair := by
  unfold popItem at h
  split at h
  · cases hr : s.todo_repair with
    | cons a as => rw [hr] at h; cases h; simp
    | nil =>
        rw [hr] at h
        cases hd : s.todo_delete with
        | cons a as => rw [hd] at h; cases h; simp
        | nil => rw [hd] at h; cases h
  · cases hd : s.todo_delete with
    | cons a as => rw [hd] at h; cases h; simp
    | nil => rw [hd] at h; cases h

theorem popItem_cases {s s1 : Synchronizer} {i : TodoItem}
    (h : popItem s = some (i, s1)) :
    (s.is_repair_enabled = true ∧ s.todo_repair = i :: s1.todo_repair ∧
       s1.todo_delete = s.todo_delete) ∨
    (s.todo_delete = i :: s1.todo_delete ∧ s1.todo_repair = s.todo_repair) := by
  unfold popItem at h
  split at h
  · rename_i he
    cases hr : s.todo_repair with
    | cons a as =>
        rw [hr] at h; cases h
        exact Or.inl ⟨he, by simp [hr], by simp⟩
    | nil =>
        rw [hr] at h
        cases hd : s.todo_delete with
        | cons a as =>
            rw [hd] at h; cases h
            exact Or.inr ⟨by simp [hd], by simp⟩
        | nil => rw [hd] at h; cases h
  · cases hd : s.todo_delete with
    | cons a as =>
        rw [hd] at h; cases h
        exact Or.inr ⟨by simp [hd], by simp⟩
    | nil => rw [hd] at h; cases h

theorem popItem_disabled_nil {s : Synchronizer} (hd : s.is_repair_enabled = false)
    (h : s.todo_delete = []) : popItem s = none := by
  simp [popItem, hd, h]

theorem popItem_disabled_cons {s : Synchronizer} {i : TodoItem} {rest : List TodoItem}
    (hd : s.is_repair_enabled = false) (h : s.todo_delete = i :: rest) :
    popItem s = some (i, { s with todo_delete := rest }) := by
  simp [popItem, hd, h]

theorem popItem_enabled_cons {s : Synchronizer} {i : TodoItem} {rest : List TodoItem}
    (hd : s.is_repair_enabled = true) (h : s.todo_repair = i :: rest) :
    popItem s = some (i, { s with todo_repair := rest }) := by
  simp [popItem, hd, h]

theorem popItem_both_nil {s : Synchronizer}
    (h1 : s.todo_delete = []) (h2 : s.is_repair_enabled = true → s.todo_repair = []) :
    popItem s = none := by
  unfold popItem
  by_cases he : s.is_repair_enabled
  · simp [he, h1, h2 he]
  · simp [he, h1]

theorem next_todo_loop_none {s : Synchronizer} (h : popItem s = none) :
    next_todo_loop s = (none, s) := by
  rw [next_todo_loop.eq_def]
  split
  · rfl
  · rename_i heq
    rw [h] at heq
    cases heq

theorem next_todo_loop_stale {s s1 : Synchronizer} {st v : Nat}
    (h : popItem s = some (TodoItem.repairContent st v, s1))
    (hv : v ∉ s1.repair_candidates) :
    next_todo_loop s =
      next_todo_loop { s1 with dequeued_repair := s1.dequeued_repair + 1 } := by
  rw [next_todo_loop.eq_def]
  split
  · rename_i heq
    rw [h] at heq
    cases heq
  · rename_i item s2 heq
    rw [h] at heq
    cases heq
    simp [hv]

theorem next_todo_loop_fresh {s s1 : Synchronizer} {st v : Nat}
    (h : popItem s = some (TodoItem.repairContent st v, s1))
    (hv : v ∈ s1.repair_candidates) :
    next_todo_loop s = (some (TodoItem.repairContent st v), s1) := by
  rw [next_todo_loop.eq_def]
  split
  · rename_i heq
    rw [h] at heq
    cases heq
  · rename_i item s2 heq
    rw [h] at heq
    cases heq
    simp [hv]

theorem next_todo_loop_del {s s1 : Synchronizer} {vs : List Nat}
    (h : popItem s = some (TodoItem.deleteContent vs, s1)) :
    next_todo_loop s = (some (TodoItem.deleteContent vs), s1) := by
  rw [next_todo_loop.eq_def]
  split
  · rename_i heq
    rw [h] at heq
    cases heq
  · rename_i item s2 heq
    rw [h] at heq
    cases heq
    simp

theorem popItem_none_iff {s : Synchronizer} :
    popItem s = none ↔
      s.todo_delete = [] ∧ (s.is_repair_enabled = true → s.todo_repair = []) := by
  unfold popItem
  by_cases he : s.is_repair_enabled
  · cases hr : s.todo_repair with
    | cons a as => simp [he, hr]
    | nil =>
        cases hd : s.todo_delete with
        | cons a as => simp [he, hd]
        | nil => simp [he, hd, hr]
  · cases hd : s.todo_delete with
    | cons a as => simp [he, hd]
    | nil => simp [he, hd]

/-- The pop loop leaves every field other than the two queues and
`dequeued_repair` untouched, and never changes `is_repair_enabled`. -/
theorem next_todo_loop_frame (s : Synchronizer) :
    (next_todo_loop s).2.task = s.task ∧
    (next_todo_loop s).2.repair_candidates = s.repair_candidates ∧
    (next_todo_loop s).2.repair_idleness_threshold = s.repair_idleness_threshold ∧
    (next_todo_loop s).2.last_not_idle = s.last_not_idle ∧
    (next_todo_loop s).2.dequeued_delete = s.dequeued_delete ∧
    (next_todo_loop s).2.is_metadata = s.is_metadata ∧
    (next_todo_loop s).2.enqueued_repair = s.enqueued_repair ∧
    (next_todo_loop s).2.enqueued_delete = s.enqueued_delete ∧
    (next_todo_loop s).2.full_sync = s.full_sync := by
  induction s using next_todo_loop.induct with
  | case1 x hp =>
      rw [next_todo_loop_none hp]
      simp
  | case2 x s1 st v hp hv _ =>
      rw [next_todo_loop_fresh hp hv]
      have hf := popItem_frame hp
      simp only
      tauto
  | case3 x s1 st v hp hv _ ih =>
      rw [next_todo_loop_stale hp hv]
      have hf := popItem_frame hp
      refine ⟨?_, ?_, ?_, ?_, ?_, ?_, ?_, ?_, ?_⟩ <;>
        simp only [ih.1, ih.2.1, ih.2.2.1, ih.2.2.2.1, ih.2.2.2.2.1, ih.2.2.2.2.2.1,
          ih.2.2.2.2.2.2.1, ih.2.2.2.2.2.2.2.1, ih.2.2.2.2.2.2.2.2] <;>
        tauto
  | case4 x s1 vs hp _ =>
      rw [next_todo_loop_del hp]
      have hf := popItem_frame hp
      simp only
      tauto

/-- The pop loop only ever returns a repair item whose version is still a
repair candidate. -/
theorem next_todo_loop_repair_mem :
    ∀ (s : Synchronizer) (s2 : Synchronizer) (st v : Nat),
      next_todo_loop s = (some (TodoItem.repairContent st v), s2) →
      v ∈ s2.repair_candidates := by
  intro s
  induction s using next_todo_loop.induct with
  | case1 x hp =>
      intro s2 st v h
      rw [next_todo_loop_none hp] at h
      cases h
  | case2 x s1 st1 v1 hp hv _ =>
      intro s2 st v h
      rw [next_todo_loop_fresh hp hv] at h
      cases h
      exact hv
  | case3 x s1 st1 v1 hp hv _ ih =>
      intro s2 st v h
      rw [next_todo_loop_stale hp hv] at h
      exact ih s2 st v h
  | case4 x s1 vs hp _ =>
      intro s2 st v h
      rw [next_todo_loop_del hp] at h
      cases h

/-- When the loop runs out it has exhausted the heaps it consulted. -/
theorem next_todo_loop_exhausted :
    ∀ (s : Synchronizer) (s1 : Synchronizer),
      next_todo_loop s = (none, s1) →
      s1.todo_delete = [] ∧ (s1.is_repair_enabled = true → s1.todo_repair = []) := by
  intro s
  induction s using next_todo_loop.induct with
  | case1 x hp =>
      intro s1 h
      rw [next_todo_loop_none hp] at h
      cases h
      exact ⟨(popItem_none_iff.1 hp).1, (popItem_none_iff.1 hp).2⟩
  | case2 x s1' st v hp hv _ =>
      intro s1 h
      rw [next_todo_loop_fresh hp hv] at h
      cases h
  | case3 x s1' st v hp hv _ ih =>
      intro s1 h
      rw [next_todo_loop_stale hp hv] at h
      exact ih s1 h
  | case4 x s1' vs hp _ =>
      intro s1 h
      rw [next_todo_loop_del hp] at h
      cases h

theorem next_todo_loop_qsize (s : Synchronizer) :
    (next_todo_loop s).2.qsize ≤ s.qsize ∧
    (∀ item s2, next_todo_loop s = (some item, s2) → s2.qsize < s.qsize) := by
  induction s using next_todo_loop.induct with
  | case1 x hp =>
      rw [next_todo_loop_none hp]
      exact ⟨le_refl _, by intro item s2 h; cases h⟩
  | case2 x s1 st v hp hv _ =>
      rw [next_todo_loop_fresh hp hv]
      have := popItem_qsize hp
      refine ⟨?_, ?_⟩
      · show s1.qsize ≤ x.qsize
        omega
      · intro item s2 h
        cases h
        omega
  | case3 x s1 st v hp hv _ ih =>
      rw [next_todo_loop_stale hp hv]
      have hq := popItem_qsize hp
      have hq1 : Synchronizer.qsize
          { s1 with dequeued_repair := s1.dequeued_repair + 1 } = s1.qsize := by
        simp [Synchronizer.qsize]
      constructor
      · omega
      · intro item s2 h
        have := ih.2 item s2 h
        omega
  | case4 x s1 vs hp _ =>
      rw [next_todo_loop_del hp]
      have := popItem_qsize hp
      refine ⟨?_, ?_⟩
      · show s1.qsize ≤ x.qsize
        omega
      · intro item s2 h
        cases h
        omega

/-- One-step description of the pop loop when repair is disabled and the
delete queue respects its invariant. -/
theorem next_todo_loop_disabled {s : Synchronizer}
    (hd : s.is_repair_enabled = false) (hdel : DeleteOnly s.todo_delete) :
    (s.todo_delete = [] → next_todo_loop s = (none, s)) ∧
    (∀ vs rest, s.todo_delete = TodoItem.deleteContent vs :: rest →
       next_todo_loop s =
         (some (TodoItem.deleteContent vs), { s with todo_delete := rest })) := by
  constructor
  · intro h
    exact next_todo_loop_none (popItem_disabled_nil hd h)
  · intro vs rest h
    exact next_todo_loop_del (popItem_disabled_cons hd h)

/-- Frame of `next_todo_item`: the fields the function never writes. -/
theorem next_todo_item_frame (now : Nat) (s : Synchronizer) :
    (next_todo_item now s).2.repair_idleness_threshold = s.repair_idleness_threshold ∧
    (next_todo_item now s).2.last_not_idle = s.last_not_idle ∧
    (next_todo_item now s).2.dequeued_delete = s.dequeued_delete ∧
    (next_todo_item now s).2.is_metadata = s.is_metadata ∧
    (next_todo_item now s).2.enqueued_repair = s.enqueued_repair ∧
    (next_todo_item now s).2.enqueued_delete = s.enqueued_delete ∧
    (next_todo_item now s).2.full_sync = s.full_sync := by
  have hf := next_todo_loop_frame s
  unfold next_todo_item
  rcases hl : next_todo_loop s with ⟨r, s1⟩
  rw [hl] at hf
  simp only at hf
  rcases r with _ | item
  · exact ⟨hf.2.2.1, hf.2.2.2.1, hf.2.2.2.2.1, hf.2.2.2.2.2.1, hf.2.2.2.2.2.2.1,
      hf.2.2.2.2.2.2.2.1, hf.2.2.2.2.2.2.2.2⟩
  · rcases hw : TodoItem.wait_time now item with _ | d
    · rcases item with ⟨st, v⟩ | vs
      · simp only [hw]
        exact ⟨hf.2.2.1, hf.2.2.2.1, hf.2.2.2.2.1, hf.2.2.2.2.2.1, hf.2.2.2.2.2.2.1,
          hf.2.2.2.2.2.2.2.1, hf.2.2.2.2.2.2.2.2⟩
      · simp only [hw]
        exact ⟨hf.2.2.1, hf.2.2.2.1, hf.2.2.2.2.1, hf.2.2.2.2.2.1, hf.2.2.2.2.2.2.1,
          hf.2.2.2.2.2.2.2.1, hf.2.2.2.2.2.2.2.2⟩
    · simp only [hw]
      exact ⟨hf.2.2.1, hf.2.2.2.1, hf.2.2.2.2.1, hf.2.2.2.2.2.1, hf.2.2.2.2.2.2.1,
        hf.2.2.2.2.2.2.2.1, hf.2.2.2.2.2.2.2.2⟩

/-- What holds whenever `next_todo_item` does return an item: the item is due
(`wait_time` is `none`, so a repair's `start_time` lies strictly in the past),
a returned repair was still a candidate and is removed from the candidate set,
a returned delete leaves the candidate set alone, and the task field is
untouched. -/
theorem next_todo_item_some {now : Nat} {s s2 : Synchronizer} {item : TodoItem}
    (h : next_todo_item now s = (some item, s2)) :
    TodoItem.wait_time now item = none ∧
    s2.task = s.task ∧
    (∀ st v, item = TodoItem.repairContent st v →
        v ∈ s.repair_candidates ∧
        s2.repair_candidates = setRemove v s.repair_candidates ∧ st < now) ∧
    (∀ vs, item = TodoItem.deleteContent vs →
        s2.repair_candidates = s.repair_candidates) := by
  have hf := next_todo_loop_frame s
  unfold next_todo_item at h
  rcases hl : next_todo_loop s with ⟨r, s1⟩
  rw [hl] at h hf
  simp only at hf
  rcases r with _ | item1
  · cases h
  · simp only at h
    rcases hw : TodoItem.wait_time now item1 with _ | d
    · rw [hw] at h
      rcases item1 with ⟨st, v⟩ | vs
      · cases h
        have hmem := next_todo_loop_repair_mem s s1 st v hl
        refine ⟨hw, hf.1, ?_, ?_⟩
        · intro st' v' he
          cases he
          refine ⟨hf.2.1 ▸ hmem, by rw [hf.2.1], ?_⟩
          have : ¬ now ≤ st := by
            intro hle
            simp [TodoItem.wait_time, hle] at hw
          omega
        · intro vs he
          cases he
      · cases h
        refine ⟨hw, hf.1, ?_, ?_⟩
        · intro st' v' he
          cases he
        · intro vs' he
          exact hf.2.1
    · rw [hw] at h
      cases h

/-- What holds whenever `next_todo_item` returns no item: the candidate set is
untouched, and either the consulted queues have been exhausted (task
untouched), or the first surviving item was not yet due and a clamped timer was
armed. -/
theorem next_todo_item_none {now : Nat} {s s2 : Synchronizer}
    (h : next_todo_item now s = (none, s2)) :
    s2.repair_candidates = s.repair_candidates ∧
    s2.repair_idleness_threshold = s.repair_idleness_threshold ∧
    ((s2.todo_delete = [] ∧ (s.is_repair_enabled = true → s2.todo_repair = []) ∧
        s2.task = s.task) ∨
     (∃ item d, TodoItem.wait_time now item = some d ∧
        s2.task = Task.wait (now + min d MAX_TIMEOUT_SECONDS))) := by
  have hf := next_todo_loop_frame s
  unfold next_todo_item at h
  rcases hl : next_todo_loop s with ⟨r, s1⟩
  rw [hl] at h hf
  simp only at hf
  rcases r with _ | item1
  · cases h
    have hex := next_todo_loop_exhausted s s2 hl
    refine ⟨hf.2.1, hf.2.2.1, Or.inl ⟨hex.1, ?_, hf.1⟩⟩
    intro he
    apply hex.2
    show (match s2.repair_idleness_threshold with
          | RepairIdleness.threshold _ => true
          | RepairIdleness.disabled => false) = true
    rw [hf.2.2.1]
    exact he
  · simp only at h
    rcases hw : TodoItem.wait_time now item1 with _ | d
    · rw [hw] at h
      rcases item1 with ⟨st, v⟩ | vs
      · cases h
      · cases h
    · rw [hw] at h
      cases h
      exact ⟨hf.2.1, hf.2.2.1, Or.inr ⟨item1, d, hw, rfl⟩⟩

/-- Exhausted consulted queues make `next_todo_item` return no item and leave
the state alone. -/
theorem next_todo_item_empty (now : Nat) {s : Synchronizer}
    (h1 : s.todo_delete = []) (h2 : s.is_repair_enabled = true → s.todo_repair = []) :
    next_todo_item now s = (none, s) := by
  have := next_todo_loop_none (popItem_both_nil h1 h2)
  unfold next_todo_item
  rw [this]

/-- One-step description of `next_todo_item` when repair is disabled: only
`todo_delete` is consulted and its head batch is returned at once. -/
theorem next_todo_item_disabled {s : Synchronizer}
    (hd : s.is_repair_enabled = false) (hdel : DeleteOnly s.todo_delete) (now : Nat) :
    (s.todo_delete = [] → next_todo_item now s = (none, s)) ∧
    (∀ vs rest, s.todo_delete = TodoItem.deleteContent vs :: rest →
        next_todo_item now s =
          (some (TodoItem.deleteContent vs), { s with todo_delete := rest })) := by
  constructor
  · intro h
    exact next_todo_item_empty now h (fun he => by rw [hd] at he; cases he)
  · intro vs rest h
    have := (next_todo_loop_disabled hd hdel).2 vs rest h
    unfold next_todo_item
    rw [this]
    rfl

/-- Frame of `handle_event`: the task, the dequeue counters, the idle stamp
and the threshold are never written; `todo_repair` only ever grows; the
delete-only queue invariant is preserved. -/
theorem handle_event_frame (now : Nat) (s : Synchronizer) (e : Event) :
    (handle_event now s e).task = s.task ∧
    (handle_event now s e).repair_idleness_threshold = s.repair_idleness_threshold ∧
    (handle_event now s e).dequeued_repair = s.dequeued_repair ∧
    (handle_event now s e).dequeued_delete = s.dequeued_delete ∧
    (handle_event now s e).last_not_idle = s.last_not_idle ∧
    List.Sublist s.todo_repair (handle_event now s e).todo_repair ∧
    (DeleteOnly s.todo_delete → DeleteOnly (handle_event now s e).todo_delete) := by
  unfold handle_event
  split
  · exact ⟨rfl, rfl, rfl, rfl, rfl, List.Sublist.refl _, fun h => h⟩
  · split
    · exact ⟨rfl, rfl, rfl, rfl, rfl, heapPush_sublist _ _, fun h => h⟩
    · dsimp only
      split
      · rename_i versions rest heq
        split
        · refine ⟨rfl, rfl, rfl, rfl, rfl, List.Sublist.refl _, ?_⟩
          intro hall
          exact deleteOnly_heapPush rfl (deleteOnly_tail (heq ▸ hall))
        · refine ⟨rfl, rfl, rfl, rfl, rfl, List.Sublist.refl _, ?_⟩
          intro hall
          exact deleteOnly_heapPush rfl hall
      · refine ⟨rfl, rfl, rfl, rfl, rfl, List.Sublist.refl _, ?_⟩
        intro hall
        exact deleteOnly_heapPush rfl hall
    · split
      · exact ⟨rfl, rfl, rfl, rfl, rfl, List.Sublist.refl _, fun h => h⟩
      · exact ⟨rfl, rfl, rfl, rfl, rfl, List.Sublist.refl _, fun h => h⟩

theorem is_repair_enabled_disabled {s : Synchronizer}
    (h : s.repair_idleness_threshold = RepairIdleness.disabled) :
    s.is_repair_enabled = false := by
  unfold Synchronizer.is_repair_enabled
  rw [h]

theorem is_repair_enabled_threshold {s : Synchronizer} {d : Nat}
    (h : s.repair_idleness_threshold = RepairIdleness.threshold d) :
    s.is_repair_enabled = true := by
  unfold Synchronizer.is_repair_enabled
  rw [h]

/-- The dispatch loop never lowers `dequeued_delete`. -/
theorem pollLoop_mono (now : Nat) :
    ∀ (fuel : Nat) (oracle : List Bool) (s : Synchronizer),
      s.dequeued_delete ≤ (pollLoop now fuel oracle s).dequeued_delete := by
  intro fuel
  induction fuel with
  | zero =>
      intro oracle s
      exact Nat.le_refl _
  | succ n ih =>
      intro oracle s
      simp only [pollLoop]
      rcases htr : taskReady now s.task oracle with ⟨ready, oracle1⟩
      rcases ready with _ | _
      · exact Nat.le_refl _
      · rcases hni : next_todo_item now { s with task := Task.idle } with ⟨r, s1⟩
        have hfr := (next_todo_item_frame now { s with task := Task.idle }).2.2.1
        rw [hni] at hfr
        simp only at hfr
        simp only []
        rcases r with _ | item
        · simp only []
          rcases hst : s1.task with _ | dl | vs | v
          · show s.dequeued_delete ≤ s1.dequeued_delete
            omega
          all_goals
            show s.dequeued_delete ≤ (pollLoop now n oracle1 s1).dequeued_delete
          all_goals exact hfr ▸ ih oracle1 s1
        · rcases item with ⟨st, v⟩ | vs
          · simp only []
            rcases hth : s1.repair_idleness_threshold with _ | d
            · show s.dequeued_delete ≤ (pollLoop now n oracle1 s1).dequeued_delete
              exact hfr ▸ ih oracle1 s1
            · simp only []
              by_cases hb : now - s1.last_not_idle < d
              · rw [if_pos hb]
                show s.dequeued_delete ≤ s1.dequeued_delete
                omega
              · rw [if_neg hb]
                refine le_trans ?_ (ih oracle1 _)
                show s.dequeued_delete ≤ s1.dequeued_delete
                omega
          · simp only []
            refine le_trans ?_ (ih oracle1 _)
            show s.dequeued_delete ≤ s1.dequeued_delete + 1
            omega

/-- With repair disabled and the delete-only queue invariant, the dispatch
loop never constructs a repair task, never pops or pushes `todo_repair`,
never counts `dequeued_repair`, and preserves the invariant. -/
theorem pollLoop_disabled (now : Nat) :
    ∀ (fuel : Nat) (oracle : List Bool) (s : Synchronizer),
      s.repair_idleness_threshold = RepairIdleness.disabled →
      DeleteOnly s.todo_delete →
      s.task.isRepair = false →
      (pollLoop now fuel oracle s).repair_idleness_threshold = RepairIdleness.disabled ∧
      DeleteOnly (pollLoop now fuel oracle s).todo_delete ∧
      (pollLoop now fuel oracle s).task.isRepair = false ∧
      (pollLoop now fuel oracle s).todo_repair = s.todo_repair ∧
      (pollLoop now fuel oracle s).dequeued_repair = s.dequeued_repair := by
  intro fuel
  induction fuel with
  | zero =>
      intro oracle s h1 h2 h3
      exact ⟨h1, h2, h3, rfl, rfl⟩
  | succ n ih =>
      intro oracle s h1 h2 h3
      simp only [pollLoop]
      rcases htr : taskReady now s.task oracle with ⟨ready, oracle1⟩
      rcases ready with _ | _
      · exact ⟨h1, h2, h3, rfl, rfl⟩
      · have hd0 : Synchronizer.is_repair_enabled { s with task := Task.idle } = false :=
          is_repair_enabled_disabled h1
        have hdel0 : DeleteOnly ({ s with task := Task.idle }).todo_delete := h2
        simp only []
        rcases hni : next_todo_item now { s with task := Task.idle } with ⟨r, s1⟩
        cases hdd : s.todo_delete with
        | nil =>
            have heq := (next_todo_item_disabled hd0 hdel0 now).1 hdd
            rw [hni] at heq
            injection heq with hr hs
            subst hr
            subst hs
            exact ⟨h1, h2, rfl, rfl, rfl⟩
        | cons i rest =>
            have hidel : isDelete i = true :=
              h2 i (by rw [hdd]; exact List.mem_cons_self _ _)
            rcases i with ⟨st, v⟩ | vs
            · cases hidel
            · have heq := (next_todo_item_disabled hd0 hdel0 now).2 vs rest hdd
              rw [hni] at heq
              injection heq with hr hs
              subst hr
              subst hs
              have hcons : DeleteOnly (TodoItem.deleteContent vs :: rest) := hdd ▸ h2
              have hrec := ih oracle1
                { s with
                  task := Task.delete vs
                  todo_delete := rest
                  dequeued_delete := s.dequeued_delete + 1
                  last_not_idle := now } h1 (deleteOnly_tail hcons) rfl
              exact ⟨hrec.1, hrec.2.1, hrec.2.2.1, hrec.2.2.2.1, hrec.2.2.2.2⟩

/-- Dispatching under `Threshold(d)` while the node was busy within the last
`d` seconds never constructs a repair task during the whole poll loop. -/
theorem pollLoop_threshold_busy (now d : Nat) :
    ∀ (fuel : Nat) (oracle : List Bool) (s : Synchronizer),
      s.repair_idleness_threshold = RepairIdleness.threshold d →
      now - s.last_not_idle < d →
      s.task.isRepair = false →
      (pollLoop now fuel oracle s).task.isRepair = false := by
  intro fuel
  induction fuel with
  | zero =>
      intro oracle s _ _ h3
      exact h3
  | succ n ih =>
      intro oracle s h1 hb h3
      simp only [pollLoop]
      rcases htr : taskReady now s.task oracle with ⟨ready, oracle1⟩
      rcases ready with _ | _
      · exact h3
      · rcases hni : next_todo_item now { s with task := Task.idle } with ⟨r, s1⟩
        have hfr := next_todo_item_frame now { s with task := Task.idle }
        rw [hni] at hfr
        simp only at hfr
        have h1' : s1.repair_idleness_threshold = RepairIdleness.threshold d :=
          hfr.1.trans h1
        have hb' : now - s1.last_not_idle < d := by
          rw [hfr.2.1]
          exact hb
        simp only []
        rcases r with _ | item
        · have hsleep : s1.task.isRepair = false := by
            rcases (next_todo_item_none hni).2.2 with ⟨_, _, ht⟩ | ⟨it, dd, hw, ht⟩
            · rw [ht]
              rfl
            · rw [ht]
              rfl
          simp only []
          rcases hst : s1.task with _ | dl | vs | v
          · exact hsleep
          · exact ih oracle1 s1 h1' hb' hsleep
          · exact ih oracle1 s1 h1' hb' hsleep
          · exact ih oracle1 s1 h1' hb' hsleep
        · rcases item with ⟨st, v⟩ | vs
          · simp only []
            rw [h1']
            simp only []
            rw [if_pos hb']
            show s1.task.isRepair = false
            rw [(next_todo_item_some hni).2.1]
            rfl
          · simp only []
            refine ih oracle1 _ (hfr.1.trans h1) ?_ rfl
            show now - now < d
            omega

/-- `Synchronizer::poll` under disabled repair: same invariants as the loop. -/
theorem poll_disabled (now : Nat) (fsd : Bool) (oracle : List Bool) (fuel : Nat)
    {s : Synchronizer}
    (h1 : s.repair_idleness_threshold = RepairIdleness.disabled)
    (h2 : DeleteOnly s.todo_delete)
    (h3 : s.task.isRepair = false) :
    (Synchronizer.poll now fsd oracle fuel s).repair_idleness_threshold =
        RepairIdleness.disabled ∧
    DeleteOnly (Synchronizer.poll now fsd oracle fuel s).todo_delete ∧
    (Synchronizer.poll now fsd oracle fuel s).task.isRepair = false ∧
    (Synchronizer.poll now fsd oracle fuel s).todo_repair = s.todo_repair ∧
    (Synchronizer.poll now fsd oracle fuel s).dequeued_repair = s.dequeued_repair := by
  unfold Synchronizer.poll
  dsimp only
  split
  · split
    · exact pollLoop_disabled now fuel oracle _ h1 h2 h3
    · exact pollLoop_disabled now fuel oracle _ h1 h2 h3
  · split
    · exact pollLoop_disabled now fuel oracle _ h1 h2 h3
    · exact pollLoop_disabled now fuel oracle _ h1 h2 h3

/-- One action under disabled repair preserves the invariants, never counts a
repair dequeue, and only ever grows `todo_repair`. -/
theorem applyAct_disabled {s : Synchronizer} (a : Act)
    (h1 : s.repair_idleness_threshold = RepairIdleness.disabled)
    (h2 : DeleteOnly s.todo_delete)
    (h3 : s.task.isRepair = false) :
    (applyAct s a).repair_idleness_threshold = RepairIdleness.disabled ∧
    DeleteOnly (applyAct s a).todo_delete ∧
    (applyAct s a).task.isRepair = false ∧
    (applyAct s a).dequeued_repair = s.dequeued_repair ∧
    List.Sublist s.todo_repair (applyAct s a).todo_repair := by
  cases a with
  | ev now e =>
      have hf := handle_event_frame now s e
      refine ⟨hf.2.1.trans h1, hf.2.2.2.2.2.2 h2, ?_, hf.2.2.1, hf.2.2.2.2.2.1⟩
      show (handle_event now s e).task.isRepair = false
      rw [hf.1]
      exact h3
  | poll now fsd oracle fuel =>
      have hp := poll_disabled now fsd oracle fuel h1 h2 h3
      refine ⟨hp.1, hp.2.1, hp.2.2.1, hp.2.2.2.2, ?_⟩
      show List.Sublist s.todo_repair (Synchronizer.poll now fsd oracle fuel s).todo_repair
      rw [hp.2.2.2.1]

/-- Whole runs under disabled repair. -/
theorem run_disabled :
    ∀ (acts : List Act) (s : Synchronizer),
      s.repair_idleness_threshold = RepairIdleness.disabled →
      DeleteOnly s.todo_delete →
      s.task.isRepair = false →
      (run s acts).repair_idleness_threshold = RepairIdleness.disabled ∧
      DeleteOnly (run s acts).todo_delete ∧
      (run s acts).task.isRepair = false ∧
      (run s acts).dequeued_repair = s.dequeued_repair ∧
      List.Sublist s.todo_repair (run s acts).todo_repair := by
  intro acts
  induction acts with
  | nil =>
      intro s h1 h2 h3
      exact ⟨h1, h2, h3, rfl, List.Sublist.refl _⟩
  | cons a as ih =>
      intro s h1 h2 h3
      have hs := applyAct_disabled a h1 h2 h3
      have hr := ih (applyAct s a) hs.1 hs.2.1 hs.2.2.1
      exact ⟨hr.1, hr.2.1, hr.2.2.1, hr.2.2.2.1.trans hs.2.2.2.1,
        hs.2.2.2.2.trans hr.2.2.2.2⟩

/-- An idle synchronizer with disabled repair and a nonempty delete queue
performs at least one delete dispatch on any poll with positive fuel. -/
theorem poll_progress (now : Nat) (fsd : Bool) (oracle : List Bool) (fuel : Nat)
    {s : Synchronizer}
    (h1 : s.repair_idleness_threshold = RepairIdleness.disabled)
    (h2 : DeleteOnly s.todo_delete)
    (ht : s.task = Task.idle)
    (hne : s.todo_delete ≠ []) :
    s.dequeued_delete < (Synchronizer.poll now fsd oracle (fuel + 1) s).dequeued_delete := by
  cases hdd : s.todo_delete with
  | nil => exact absurd hdd hne
  | cons i rest =>
      have hidel : isDelete i = true := h2 i (by rw [hdd]; exact List.mem_cons_self _ _)
      rcases i with ⟨st, v⟩ | vs
      · cases hidel
      · unfold Synchronizer.poll
        dsimp only
        by_cases hc1 : (s.full_sync.isSome && fsd) = true
        · rw [if_pos hc1]
          have hsl : Task.is_sleeping
              ({ s with full_sync := none } : Synchronizer).task = true := by
            show Task.is_sleeping s.task = true
            rw [ht]
            rfl
          rw [if_pos hsl]
          simp only [pollLoop]
          have htr : taskReady now
              ({ s with full_sync := none } : Synchronizer).task oracle = (true, oracle) := by
            show taskReady now s.task oracle = (true, oracle)
            rw [ht]
            rfl
          rw [htr]
          simp only []
          have hd' : Synchronizer.is_repair_enabled
              { s with full_sync := none, task := Task.idle } = false :=
            is_repair_enabled_disabled h1
          have hdel' : DeleteOnly
              ({ s with full_sync := none, task := Task.idle } : Synchronizer).todo_delete :=
            h2
          have heq := (next_todo_item_disabled hd' hdel' now).2 vs rest hdd
          rw [heq]
          simp only []
          refine lt_of_lt_of_le ?_ (pollLoop_mono now fuel oracle _)
          show s.dequeued_delete < s.dequeued_delete + 1
          omega
        · rw [if_neg hc1]
          have hsl : Task.is_sleeping s.task = true := by
            rw [ht]
            rfl
          rw [if_pos hsl]
          simp only [pollLoop]
          have htr : taskReady now s.task oracle = (true, oracle) := by
            rw [ht]
            rfl
          rw [htr]
          simp only []
          have hd' : Synchronizer.is_repair_enabled
              { s with task := Task.idle } = false :=
            is_repair_enabled_disabled h1
          have hdel' : DeleteOnly
              ({ s with task := Task.idle } : Synchronizer).todo_delete := h2
          have heq := (next_todo_item_disabled hd' hdel' now).2 vs rest hdd
          rw [heq]
          simp only []
          refine lt_of_lt_of_le ?_ (pollLoop_mono now fuel oracle _)
          show s.dequeued_delete < s.dequeued_delete + 1
          omega

/-- The fresh non-metadata synchronizer of the coalesced-deletion scenario:
`Synchronizer::new` at instant 0, node is not metadata, any step size. -/
def c1Start : Synchronizer := Synchronizer.new 0 false 100

/-- State after ingesting `Deleted(1)`, …, `Deleted(20)` in order into
`c1Start`, with no intervening scheduler polls. -/
def c1Final : Synchronizer :=
  run c1Start ((List.range' 1 20).map (fun v => Act.ev 0 (Event.deleted v)))

/-- C1 (counterexample): ingesting `Deleted(1)`, …, `Deleted(20)` does NOT
leave two delete items with two `enqueued_delete` increments. `peek_mut`
returns the minimum of `BinaryHeap<Reverse<TodoItem>>`, and the full batch
`[1..16]` stays that minimum (its version list is lexicographically below
every later singleton), so `Deleted(17)`–`Deleted(20)` each fail to coalesce
and open a fresh item. -/
theorem c1_counterexample :
    ¬ (c1Final.todo_delete.length = 2 ∧ c1Final.enqueued_delete = 2) := by
  decide

/-- C1 (amended): ingesting `Deleted(1)`, …, `Deleted(20)` into a fresh
non-metadata synchronizer leaves exactly five `DeleteContent` items in
`todo_delete` — the 16-version batch `[1..16]` and the four singletons
`[17]`, `[18]`, `[19]`, `[20]` — and increments `enqueued_delete` exactly
five times: each `Deleted` coalesces into the top (minimum) of `todo_delete`
only while that batch has fewer than `DELETE_CONCURRENCY = 16` versions, and
since the full `[1..16]` batch remains the minimum, each later `Deleted`
creates a new single-version item. -/
theorem c1_amended :
    c1Final.todo_delete =
      [TodoItem.deleteContent [1, 2, 3, 4, 5, 6, 7, 8, 9, 10, 11, 12, 13, 14, 15, 16],
       TodoItem.deleteContent [17], TodoItem.deleteContent [18],
       TodoItem.deleteContent [19], TodoItem.deleteContent [20]] ∧
    c1Final.enqueued_delete = 5 := by
  decide

/-- C2 (counterexample): a `DeleteContent` CAN sort after a `RepairContent`
whose `start_time` lies in the future: at instant 0 the repair item with
`start_time = 100` still has 100 seconds of wait, yet `DeleteContent [1]`
sorts after it (the derived order compares the variant tag first). -/
theorem c2_counterexample :
    TodoItem.wait_time 0 (TodoItem.repairContent 100 5) = some 100 ∧
    TodoItem.lt (TodoItem.repairContent 100 5) (TodoItem.deleteContent [1]) = true := by
  decide

/-- C2 (amended): the derived total order on `TodoItem` sorts `RepairContent`
items first by `start_time` ascending and then by `version` ascending
(earlier `start_time` sorts lower, popped first from the min-heap), sorts
every `RepairContent` strictly below every `DeleteContent` (the Rust derive
compares the declaration-order variant tag first), and sorts `DeleteContent`
items lexicographically by their version lists — so a `DeleteContent` always,
not never, sorts after a `RepairContent` whose `start_time` lies in the
future; the two kinds never share a heap, so only the per-variant orders are
ever consulted. -/
theorem c2_amended :
    (∀ s1 v1 s2 v2 : Nat,
        TodoItem.lt (TodoItem.repairContent s1 v1) (TodoItem.repairContent s2 v2) = true ↔
          (s1 < s2 ∨ (s1 = s2 ∧ v1 < v2))) ∧
    (∀ (st v : Nat) (l : List Nat),
        TodoItem.lt (TodoItem.repairContent st v) (TodoItem.deleteContent l) = true) ∧
    (∀ (st v : Nat) (l : List Nat),
        TodoItem.lt (TodoItem.deleteContent l) (TodoItem.repairContent st v) = false) ∧
    (∀ l1 l2 : List Nat,
        TodoItem.lt (TodoItem.deleteContent l1) (TodoItem.deleteContent l2) = listLt l1 l2) := by
  refine ⟨?_, ?_, ?_, ?_⟩
  · intro s1 v1 s2 v2
    simp only [TodoItem.lt]
    split_ifs with ha hb
    · simp only [true_iff]
      exact Or.inl ha
    · simp only [Bool.false_eq_true, false_iff]
      omega
    · simp only [decide_eq_true_eq]
      omega
  · intro st v l
    rfl
  · intro st v l
    rfl
  · intro l1 l2
    rfl

/-- C7: a `FullSync` event arriving while a full-sync job is active leaves
the synchronizer exactly as it was (the event is dropped, so the `Option`
slot never holds more than one job), and a `FullSync` event never touches
the two queues, the candidate set, or the enqueue counters. -/
theorem c7_theorem :
    (∀ (now : Nat) (s : Synchronizer) (nc j : Nat),
        s.full_sync = some j → handle_event now s (Event.fullSync nc) = s) ∧
    (∀ (now : Nat) (s : Synchronizer) (nc : Nat),
        (handle_event now s (Event.fullSync nc)).todo_delete = s.todo_delete ∧
        (handle_event now s (Event.fullSync nc)).todo_repair = s.todo_repair ∧
        (handle_event now s (Event.fullSync nc)).enqueued_repair = s.enqueued_repair ∧
        (handle_event now s (Event.fullSync nc)).enqueued_delete = s.enqueued_delete ∧
        (handle_event now s (Event.fullSync nc)).repair_candidates = s.repair_candidates) := by
  constructor
  · intro now s nc j hj
    have hev : handle_event now s (Event.fullSync nc) =
        if s.is_metadata then s
        else if s.full_sync.isNone then { s with full_sync := some nc } else s := rfl
    rw [hev]
    have hn : s.full_sync.isNone = false := by
      rw [hj]
      rfl
    split_ifs with hm h2
    · rfl
    · rw [hn] at h2
      cases h2
    · rfl
  · intro now s nc
    have hev : handle_event now s (Event.fullSync nc) =
        if s.is_metadata then s
        else if s.full_sync.isNone then { s with full_sync := some nc } else s := rfl
    rw [hev]
    split_ifs
    · exact ⟨rfl, rfl, rfl, rfl, rfl⟩
    · exact ⟨rfl, rfl, rfl, rfl, rfl⟩
    · exact ⟨rfl, rfl, rfl, rfl, rfl⟩

/-- A synchronizer with an active full-sync job, for exercising C7. -/
def c7State : Synchronizer := { Synchronizer.new 0 false 7 with full_sync := some 3 }

/-- C7 witness: dropping a second `FullSync` while job 3 is active. -/
theorem c7_witness :
    handle_event 0 c7State (Event.fullSync 9) = c7State ∧
    (handle_event 0 c7State (Event.fullSync 9)).todo_delete = c7State.todo_delete :=
  ⟨c7_theorem.1 0 c7State 9 3 rfl, (c7_theorem.2 0 c7State 9).1⟩

/-- C8: on a node whose storage client reports `is_metadata`, `handle_event`
returns the state unchanged for every event — queues, candidate set,
counters, full-sync slot and all. -/
theorem c8_theorem :
    ∀ (now : Nat) (s : Synchronizer) (e : Event),
      s.is_metadata = true → handle_event now s e = s := by
  intro now s e h
  unfold handle_event
  rw [if_pos h]

/-- C8 witness: a metadata node ignores a `Deleted` event. -/
theorem c8_witness :
    handle_event 0 (Synchronizer.new 0 true 4) (Event.deleted 1) =
      Synchronizer.new 0 true 4 :=
  c8_theorem 0 (Synchronizer.new 0 true 4) (Event.deleted 1) rfl

/-- C3: while `repair_idleness_threshold = Disabled`, over every sequence of
event ingests and scheduler polls, no `Repair` task is ever constructed, no
repair dequeue is ever counted, and `todo_repair` is never popped — the
initial queue survives as a sublist, only grown by pushes — while the
delete-only queue invariant is preserved; yet deletes still proceed: an idle
synchronizer with a nonempty delete queue increments `dequeued_delete` on any
poll with positive fuel. -/
theorem c3_theorem :
    (∀ (acts : List Act) (s : Synchronizer),
        s.repair_idleness_threshold = RepairIdleness.disabled →
        DeleteOnly s.todo_delete →
        s.task.isRepair = false →
        (run s acts).repair_idleness_threshold = RepairIdleness.disabled ∧
        DeleteOnly (run s acts).todo_delete ∧
        (run s acts).task.isRepair = false ∧
        (run s acts).dequeued_repair = s.dequeued_repair ∧
        List.Sublist s.todo_repair (run s acts).todo_repair) ∧
    (∀ (now : Nat) (fsd : Bool) (oracle : List Bool) (fuel : Nat) (s : Synchronizer),
        s.repair_idleness_threshold = RepairIdleness.disabled →
        DeleteOnly s.todo_delete →
        s.task = Task.idle →
        s.todo_delete ≠ [] →
        s.dequeued_delete < (Synchronizer.poll now fsd oracle (fuel + 1) s).dequeued_delete) :=
  ⟨run_disabled,
   fun now fsd oracle fuel s h1 h2 h3 h4 => poll_progress now fsd oracle fuel h1 h2 h3 h4⟩

/-- A disabled-repair synchronizer holding one delete batch, for C3. -/
def c3State : Synchronizer := handle_event 0 (Synchronizer.new 0 false 1) (Event.deleted 3)

/-- C3 witness: no repair dequeue over a run, and a poll drains the delete. -/
theorem c3_witness :
    (run c3State [Act.poll 5 false [] 3]).dequeued_repair = c3State.dequeued_repair ∧
    c3State.dequeued_delete < (Synchronizer.poll 5 false [] (2 + 1) c3State).dequeued_delete :=
  ⟨(c3_theorem.1 [Act.poll 5 false [] 3] c3State (by decide) (by decide) (by decide)).2.2.2.1,
   c3_theorem.2 5 false [] 2 c3State (by decide) (by decide) (by decide) (by decide)⟩

/-- C4: popping a stale repair — one whose version is no longer in
`repair_candidates`, e.g. because a `Deleted` for it arrived after the
`Putted` — discards the item with exactly one `dequeued_repair` increment and
continues with the next queued item: `next_todo_item` on the original state
equals `next_todo_item` on the state with the stale head removed and the
counter bumped. Moreover `next_todo_item` only ever returns a repair whose
version is still a candidate, so no repair task (and hence no device
operation) is ever constructed for a stale version. -/
theorem c4_theorem :
    (∀ (now : Nat) (s : Synchronizer) (st v : Nat) (rest : List TodoItem),
        s.is_repair_enabled = true →
        s.todo_repair = TodoItem.repairContent st v :: rest →
        v ∉ s.repair_candidates →
        next_todo_item now s =
          next_todo_item now
            { s with todo_repair := rest, dequeued_repair := s.dequeued_repair + 1 }) ∧
    (∀ (now : Nat) (s s2 : Synchronizer) (st v : Nat),
        next_todo_item now s = (some (TodoItem.repairContent st v), s2) →
        v ∈ s.repair_candidates) := by
  constructor
  · intro now s st v rest he hr hv
    unfold next_todo_item
    rw [next_todo_loop_stale (popItem_enabled_cons he hr) hv]
  · intro now s s2 st v h
    exact ((next_todo_item_some h).2.2.1 st v rfl).1

/-- A synchronizer whose queued repair for version 7 went stale: the
candidate set no longer holds 7. -/
def c4Stale : Synchronizer :=
  { Synchronizer.new 0 false 1 with
    repair_idleness_threshold := RepairIdleness.threshold 2
    todo_repair := [TodoItem.repairContent 3 7] }

/-- C4 witness: discarding the stale repair equals popping plus one
`dequeued_repair` increment. -/
theorem c4_witness :
    next_todo_item 0 c4Stale =
      next_todo_item 0
        { c4Stale with todo_repair := [], dequeued_repair := c4Stale.dequeued_repair + 1 } :=
  c4_theorem.1 0 c4Stale 3 7 [] (by decide) (by decide) (by decide)

/-- C5: a `Putted(v, t)` ingested at instant `now` creates its repair item
with `start_time = now + t` (both in `TodoItem::new` and as pushed by
`handle_event`); whenever the pop loop selects an item whose `wait_time` is
pending — in particular non-zero — `next_todo_item` clamps the wait to
`MAX_TIMEOUT_SECONDS = 60`, arms the single-shot timer, re-pushes the item
onto `todo_repair` and returns no item; and a repair item is only ever
returned strictly after its `start_time`, so the interval between ingesting
`Putted(v, t)` and the earliest possible repair dispatch is at least (indeed
more than) `t` seconds. -/
theorem c5_theorem :
    (∀ (now v t : Nat),
        TodoItem.fromEvent now (Event.putted v t) =
          some (TodoItem.repairContent (now + t) v)) ∧
    (∀ (now v t : Nat) (s : Synchronizer), s.is_metadata = false →
        (handle_event now s (Event.putted v t)).todo_repair =
          heapPush (TodoItem.repairContent (now + t) v) s.todo_repair) ∧
    (∀ (now d : Nat) (s s1 : Synchronizer) (item : TodoItem),
        next_todo_loop s = (some item, s1) →
        TodoItem.wait_time now item = some d →
        next_todo_item now s =
          (none, { s1 with
                    task := Task.wait (now + min d MAX_TIMEOUT_SECONDS)
                    todo_repair := heapPush item s1.todo_repair })) ∧
    (∀ (ingest t now : Nat) (s s2 : Synchronizer) (v : Nat),
        next_todo_item now s = (some (TodoItem.repairContent (ingest + t) v), s2) →
        ingest + t < now ∧ t ≤ now - ingest) := by
  refine ⟨?_, ?_, ?_, ?_⟩
  · intro now v t
    rfl
  · intro now v t s hm
    have hev : handle_event now s (Event.putted v t) =
        if s.is_metadata then s
        else { s with
               enqueued_repair := s.enqueued_repair + 1
               repair_candidates := setInsert v s.repair_candidates
               todo_repair := heapPush (TodoItem.repairContent (now + t) v) s.todo_repair } :=
      rfl
    rw [hev, if_neg (by rw [hm]; exact Bool.false_ne_true)]
  · intro now d s s1 item hl hw
    unfold next_todo_item
    rw [hl]
    simp only []
    rw [hw]
  · intro ingest t now s s2 v h
    have hlt := ((next_todo_item_some h).2.2.1 (ingest + t) v rfl).2.2
    exact ⟨hlt, by omega⟩

/-- An enabled synchronizer with one pending (not yet due) repair for C5. -/
def c5S : Synchronizer :=
  { Synchronizer.new 0 false 1 with
    repair_idleness_threshold := RepairIdleness.threshold 5
    todo_repair := [TodoItem.repairContent 10 4]
    repair_candidates := [4] }

/-- C5 witness: at instant 0 the repair due at 10 is re-pushed behind a
`Wait` with deadline `0 + min 10 60`, and `TodoItem::new` stamps
`start_time = ingest + t`. -/
theorem c5_witness :
    next_todo_item 0 c5S =
      (none, { c5S with
                task := Task.wait (0 + min 10 MAX_TIMEOUT_SECONDS)
                todo_repair := heapPush (TodoItem.repairContent 10 4) [] }) ∧
    TodoItem.fromEvent 2 (Event.putted 9 3) = some (TodoItem.repairContent (2 + 3) 9) :=
  ⟨c5_theorem.2.2.1 0 10 c5S { c5S with todo_repair := [] } (TodoItem.repairContent 10 4)
     (next_todo_loop_fresh (popItem_enabled_cons (by decide) rfl) (by decide)) (by decide),
   c5_theorem.1 2 9 3⟩

theorem setRemove_not_mem (v : Nat) (l : List Nat) : v ∉ setRemove v l := by
  unfold setRemove
  intro h
  have := List.mem_filter.1 h
  simp at this

/-- `Deleted` removes the version from the candidate set in every
non-metadata branch of `handle_event`. -/
theorem handle_event_deleted_candidates (now v : Nat) (s : Synchronizer)
    (hm : s.is_metadata = false) :
    (handle_event now s (Event.deleted v)).repair_candidates =
      setRemove v s.repair_candidates := by
  unfold handle_event
  rw [if_neg (by rw [hm]; exact Bool.false_ne_true)]
  dsimp only
  split
  · split
    · rfl
    · rfl
  · rfl

/-- C9: whenever `next_todo_item` returns no item — in particular when it
re-pushes a popped `RepairContent` that is not yet due and enters the `Wait`
state — the candidate set is left exactly as it was; a version is removed
from `repair_candidates` only when its item is actually returned for
dispatch; and a `Deleted(v)` ingested on a non-metadata node (for example
while the repair for `v` is waiting) removes `v` from the candidate set, so
the re-pushed item will be found stale on a later pop. -/
theorem c9_theorem :
    (∀ (now : Nat) (s s2 : Synchronizer),
        next_todo_item now s = (none, s2) →
        s2.repair_candidates = s.repair_candidates) ∧
    (∀ (now : Nat) (s s2 : Synchronizer) (item : TodoItem),
        next_todo_item now s = (some item, s2) →
        s2.repair_candidates =
          (match item with
           | TodoItem.repairContent _ v => setRemove v s.repair_candidates
           | TodoItem.deleteContent _ => s.repair_candidates)) ∧
    (∀ (now v : Nat) (s : Synchronizer), s.is_metadata = false →
        v ∉ (handle_event now s (Event.deleted v)).repair_candidates) := by
  refine ⟨?_, ?_, ?_⟩
  · intro now s s2 h
    exact (next_todo_item_none h).1
  · intro now s s2 item h
    rcases item with ⟨st, v⟩ | vs
    · exact ((next_todo_item_some h).2.2.1 st v rfl).2.1
    · exact (next_todo_item_some h).2.2.2 vs rfl
  · intro now v s hm
    rw [handle_event_deleted_candidates now v s hm]
    exact setRemove_not_mem v s.repair_candidates

/-- An enabled synchronizer with one pending repair due at instant 20. -/
def c9S : Synchronizer :=
  { Synchronizer.new 0 false 1 with
    repair_idleness_threshold := RepairIdleness.threshold 9
    todo_repair := [TodoItem.repairContent 20 8]
    repair_candidates := [8] }

/-- The `Wait`-state successor of `c9S` at instant 0. -/
def c9Wait : Synchronizer :=
  { c9S with
    task := Task.wait (0 + min 20 MAX_TIMEOUT_SECONDS)
    todo_repair := [TodoItem.repairContent 20 8] }

/-- C9 witness: the re-push leaves the candidate set untouched, and a
`Deleted(8)` removes 8 from the candidates. -/
theorem c9_witness :
    c9Wait.repair_candidates = c9S.repair_candidates ∧
    8 ∉ (handle_event 0 c9S (Event.deleted 8)).repair_candidates :=
  ⟨c9_theorem.1 0 c9S c9Wait
     (by unfold next_todo_item
         rw [next_todo_loop_fresh
           (@popItem_enabled_cons c9S (TodoItem.repairContent 20 8) [] rfl rfl) (by decide)]
         rfl),
   c9_theorem.2.2 0 8 c9S rfl⟩

/-- An enabled synchronizer whose only repair is not yet due at instant 0. -/
def c10S : Synchronizer :=
  { Synchronizer.new 0 false 1 with
    repair_idleness_threshold := RepairIdleness.threshold 1
    todo_repair := [TodoItem.repairContent 5 7]
    repair_candidates := [7] }

/-- C10 (counterexample): `next_todo_item` does NOT return `None` only when
the consulted heaps are exhausted: at instant 0 the repair due at 5 survives
the loop, is re-pushed behind a clamped timer, and the function returns
`None` with `todo_repair` nonempty both before and after. -/
theorem c10_counterexample :
    c10S.is_repair_enabled = true ∧
    c10S.todo_repair ≠ [] ∧
    next_todo_item 0 c10S =
      (none, { c10S with
                task := Task.wait (0 + min 5 MAX_TIMEOUT_SECONDS)
                todo_repair := [TodoItem.repairContent 5 7] }) := by
  refine ⟨rfl, by decide, ?_⟩
  unfold next_todo_item
  rw [next_todo_loop_fresh
    (@popItem_enabled_cons c10S (TodoItem.repairContent 5 7) [] rfl rfl) (by decide)]
  rfl

/-- C10 (amended): `next_todo_item` terminates for every synchronizer state —
each iteration of its pop loop removes one element from one of the two finite
heaps (the re-push happens only after the loop has exited), so the queue
population never grows across the loop and strictly shrinks whenever an item
survives; the function returns `None` either with the consulted heaps
exhausted and the task untouched, or because the surviving item was not yet
due and was re-pushed behind a timer clamped to `MAX_TIMEOUT_SECONDS`; and
conversely exhausted consulted heaps always produce `None` with the state
unchanged. -/
theorem c10_amended :
    (∀ s : Synchronizer, (next_todo_loop s).2.qsize ≤ s.qsize) ∧
    (∀ (s s2 : Synchronizer) (item : TodoItem),
        next_todo_loop s = (some item, s2) → s2.qsize < s.qsize) ∧
    (∀ (now : Nat) (s s2 : Synchronizer),
        next_todo_item now s = (none, s2) →
        (s2.todo_delete = [] ∧ (s.is_repair_enabled = true → s2.todo_repair = []) ∧
           s2.task = s.task) ∨
        (∃ item d, TodoItem.wait_time now item = some d ∧
           s2.task = Task.wait (now + min d MAX_TIMEOUT_SECONDS))) ∧
    (∀ (now : Nat) (s : Synchronizer),
        s.todo_delete = [] → (s.is_repair_enabled = true → s.todo_repair = []) →
        next_todo_item now s = (none, s)) := by
  refine ⟨?_, ?_, ?_, ?_⟩
  · intro s
    exact (next_todo_loop_qsize s).1
  · intro s s2 item h
    exact (next_todo_loop_qsize s).2 item s2 h
  · intro now s s2 h
    exact (next_todo_item_none h).2.2
  · intro now s h1 h2
    exact next_todo_item_empty now h1 h2

/-- C10 witness: a fresh synchronizer has both heaps empty, and
`next_todo_item` returns no item, leaving the state alone. -/
theorem c10_witness :
    next_todo_item 3 (Synchronizer.new 0 false 2) = (none, Synchronizer.new 0 false 2) :=
  c10_amended.2.2.2 3 (Synchronizer.new 0 false 2) rfl (fun _ => rfl)

/-- C6: when a poll's dispatch step receives a `RepairContent` under
`Threshold(d)`: if the time elapsed since `last_not_idle` is below `d`, the
version is re-inserted into `repair_candidates`, the item is re-pushed onto
`todo_repair`, and the loop breaks without constructing a repair task;
otherwise `dequeued_repair` is incremented, a `Repair` task is started, and
`last_not_idle` is refreshed before the loop continues. Consequently no
repair task ever comes into existence during a poll whose `last_not_idle`
lies within the idleness threshold — the check happens at dispatch time. -/
theorem c6_theorem :
    (∀ (now fuel : Nat) (oracle oracle1 : List Bool) (s s1 : Synchronizer)
       (st v d : Nat),
        taskReady now s.task oracle = (true, oracle1) →
        next_todo_item now { s with task := Task.idle } =
          (some (TodoItem.repairContent st v), s1) →
        s1.repair_idleness_threshold = RepairIdleness.threshold d →
        ((now - s1.last_not_idle < d →
            pollLoop now (fuel + 1) oracle s =
              { s1 with
                repair_candidates := setInsert v s1.repair_candidates
                todo_repair := heapPush (TodoItem.repairContent st v) s1.todo_repair }) ∧
         (¬ now - s1.last_not_idle < d →
            pollLoop now (fuel + 1) oracle s =
              pollLoop now fuel oracle1
                { s1 with
                  task := Task.repair v
                  dequeued_repair := s1.dequeued_repair + 1
                  last_not_idle := now }))) ∧
    (∀ (now d fuel : Nat) (oracle : List Bool) (s : Synchronizer),
        s.repair_idleness_threshold = RepairIdleness.threshold d →
        now - s.last_not_idle < d →
        s.task.isRepair = false →
        (pollLoop now fuel oracle s).task.isRepair = false) := by
  constructor
  · intro now fuel oracle oracle1 s s1 st v d htr hni hth
    constructor
    · intro hb
      simp only [pollLoop]
      rw [htr]
      simp only []
      rw [hni]
      simp only []
      rw [hth]
      simp only []
      rw [if_pos hb]
    · intro hb
      simp only [pollLoop]
      rw [htr]
      simp only []
      rw [hni]
      simp only []
      rw [hth]
      simp only []
      rw [if_neg hb]
  · intro now d fuel oracle s h1 h2 h3
    exact pollLoop_threshold_busy now d fuel oracle s h1 h2 h3

/-- An idle synchronizer under `Threshold(4)` whose repair for version 2 is
due, but whose `last_not_idle = 3` is too recent at instant 5. -/
def c6S : Synchronizer :=
  { Synchronizer.new 0 false 1 with
    repair_idleness_threshold := RepairIdleness.threshold 4
    todo_repair := [TodoItem.repairContent 1 2]
    repair_candidates := [2]
    last_not_idle := 3 }

/-- The state in which the dispatch step of `c6S` hands over the repair. -/
def c6Mid : Synchronizer :=
  { c6S with task := Task.idle, todo_repair := [], repair_candidates := [] }

/-- C6 witness: at instant 5 with `last_not_idle = 3` and threshold 4, the
popped repair is re-inserted and re-pushed, and the poll breaks. -/
theorem c6_witness :
    pollLoop 5 (0 + 1) [] c6S =
      { c6Mid with
        repair_candidates := setInsert 2 c6Mid.repair_candidates
        todo_repair := heapPush (TodoItem.repairContent 1 2) c6Mid.todo_repair } :=
  (c6_theorem.1 5 0 [] [] c6S c6Mid 1 2 4 rfl
     (by unfold next_todo_item
         rw [next_todo_loop_fresh
           (@popItem_enabled_cons { c6S with task := Task.idle }
             (TodoItem.repairContent 1 2) [] rfl rfl) (by decide)]
         rfl)
     rfl).1 (by decide)

end Frugalos
